import Mathlib

/-!
Shallow embedding of the pycsvdiff table-diffing core (pycsvdiff.py):
the `nil` sentinel, `diff_seq_by_index`, the `Table` constructor, and the
`TableDiffer` engine (`__init__`, `_diff_row`, `diff_fields`, `diff_rows`),
together with theorems checking the specification's claims about them.

Cell values are modelled by `Val`: the `nil` sentinel (class `NilType`),
Python `None`, and strings (the values csv rows actually carry).  Python's
`str()` and `str.lower()` on these values are modelled by `pyStr` and
`pyLower`.  Row streams are finite lists consumed once, matching the
documented contract that `rows` is an iterator like `csv.reader`.
-/

namespace Pycsvdiff

/-- A cell value: the `nil` sentinel, Python `None`, or a string. -/
inductive Val where
  | nil : Val
  | pynone : Val
  | str (s : String) : Val
deriving DecidableEq, Repr

/-- Python `str()` on a modelled value: `NilType.__repr__` returns `"nil"`,
`str(None)` is `"None"`, and a string is itself. -/
def pyStr : Val → String
  | Val.nil => "nil"
  | Val.pynone => "None"
  | Val.str s => s

/-- Python 2 `str.lower()` on one character: ASCII `A`-`Z` map to `a`-`z`,
everything else is unchanged (Python 2 `str` is a byte string). -/
def pyLowerChar (c : Char) : Char :=
  if 65 ≤ c.toNat ∧ c.toNat ≤ 90 then Char.ofNat (c.toNat + 32) else c

/-- Python 2 `str.lower()`: lowercase each character. -/
def pyLower (s : String) : String :=
  ⟨s.data.map pyLowerChar⟩

/-- The comparator closure built inside `TableDiffer._diff_row`: exact
equality, or `str(p).lower() == str(q).lower()` when `ignore_case` is set. -/
def comparator (ignore_case : Bool) (p q : Val) : Bool :=
  if ignore_case then pyLower (pyStr p) == pyLower (pyStr q) else p == q

/-- The bidirectional dict built at the top of `diff_seq_by_index`:
`dict(mapping | set(map(reversed, mapping)))`, queried at key `i`.  For the
functional mappings the claims quantify over, every entry for a key agrees,
so first-match lookup coincides with Python's dict. -/
def bidirLookup (mapping : List (Nat × Nat)) (i : Nat) : Option Nat :=
  ((mapping ++ mapping.map (fun p => (p.2, p.1))).find? (fun p => p.1 == i)).map (·.2)

/-- `diff_seq_by_index(a, b, cmp, mapping, skip)`: walk `i` over
`xrange(max(len(a), len(b)))`, skip when `skip(i)`, read `a[i]` (IndexError
gives `nil`), resolve `j = mapping[i]` (KeyError gives `i`), read `b[j]`
(IndexError gives `nil`), and append `(i, x, y)` whenever `cmp(x, y)` is
false. -/
def diff_seq_by_index (a b : List Val) (cmp : Val → Val → Bool)
    (mapping : List (Nat × Nat)) (skip : Nat → Bool) : List (Nat × Val × Val) :=
  (List.range (max a.length b.length)).foldl
    (fun diffs i =>
      if skip i then diffs
      else
        let x := (a.get? i).getD Val.nil
        let j := (bidirLookup mapping i).getD i
        let y := (b.get? j).getD Val.nil
        if cmp x y then diffs else diffs ++ [(i, x, y)])
    []

/-- The body of `diff_seq_by_index`'s loop for one non-skipped position,
returning `some (i, x, y)` exactly when a diff is recorded at `i`. -/
def seqDiffAt (a b : List Val) (cmp : Val → Val → Bool)
    (mapping : List (Nat × Nat)) (skip : Nat → Bool) (i : Nat) :
    Option (Nat × Val × Val) :=
  if skip i then none
  else
    let x := (a.get? i).getD Val.nil
    let j := (bidirLookup mapping i).getD i
    let y := (b.get? j).getD Val.nil
    if cmp x y then none else some (i, x, y)

/-- The claim-side mapping lookup: `j = mapping(i)` when the mapping, read
as a relation, contains a pair with first component `i` (for the symmetric,
functional mappings the claims quantify over, this is exactly the dict
lookup performed by `diff_seq_by_index`). -/
def mappingAt (m : List (Nat × Nat)) (i : Nat) : Option Nat :=
  (m.find? (fun p => p.1 == i)).map (·.2)

/-- The specified behaviour of one position of the sequence diff, in the
words of the claim: skip if `skip(i)`; otherwise `x = A[i]` or sentinel,
`j = mapping(i)` if present else `i`, `y = B[j]` or sentinel; emit
`(i, x, y)` exactly when the predicate reports them unequal. -/
def seqDiffSpecAt (a b : List Val) (cmp : Val → Val → Bool)
    (m : List (Nat × Nat)) (skip : Nat → Bool) (i : Nat) :
    Option (Nat × Val × Val) :=
  if skip i then none
  else
    let x := (a.get? i).getD Val.nil
    let j := (mappingAt m i).getD i
    let y := (b.get? j).getD Val.nil
    if cmp x y then none else some (i, x, y)

/-- A table: field names, the (remaining) row stream, and whether the first
row of the source represented field labels. -/
structure Table where
  fields : List Val
  rows : List (List Val)
  label_first_row : Bool
deriving DecidableEq, Repr

/-- The branch of `Table.__init__` taken when no (truthy) `fields` argument
is given: peek the first row; use it as the schema when `label_first_row`,
otherwise synthesize `"%i" % i` names and put the peeked row back. -/
def Table.initPeek (rows : List (List Val)) (label_first_row : Bool) :
    Except String Table :=
  match rows with
  | [] => Except.error "StopIteration"
  | peek :: rest =>
    if label_first_row then Except.ok ⟨peek, rest, true⟩
    else
      Except.ok ⟨(List.range peek.length).map (fun i => Val.str (toString i)),
        peek :: rest, false⟩

/-- `Table.__init__(rows, fields, label_first_row)`.  The row source is an
iterator (per the docstring, "something to yield rows like csv.reader"), so
peeking consumes its first element.  A falsy `fields` argument (absent or an
empty tuple) triggers the peek; an empty row source then raises
`StopIteration` out of the constructor, modelled as an error. -/
def Table.init (rows : List (List Val)) (fields : Option (List Val))
    (label_first_row : Bool) : Except String Table :=
  match fields with
  | some fs =>
    if fs.isEmpty then Table.initPeek rows label_first_row
    else Except.ok ⟨fs, rows, label_first_row⟩
  | none => Table.initPeek rows label_first_row

/-- `TableDiffer.__init__`'s loop building `self.mapping` when
`table_a.label_first_row`: for each `i, field_a`, link `i` to the first `j`
with `table_b.fields[j] == field_a`, if any. -/
def buildMapping (fa fb : List Val) : List (Nat × Nat) :=
  fa.enum.filterMap (fun p =>
    (fb.findIdx? (fun v => v == p.2)).map (fun j => (p.1, j)))

/-- The state of a constructed `TableDiffer`. -/
structure Differ where
  table_a : Table
  table_b : Table
  skipped_fields : List Nat
  ignore_case : Bool
  ignore_order : Bool
  mapping : List (Nat × Nat)
  difference_detected : Bool
deriving DecidableEq, Repr

/-- `TableDiffer.__init__`: the two `assert`s on label flags and the
mutual-exclusion `assert` on `skipped_fields`/`only_fields` are modelled as
errors; an absent or empty (falsy) field list is the empty list.  The
skip set is the given one, or the complement of `only_fields` inside
`range(max(len(fields_a), len(fields_b)))`. -/
def TableDiffer.init (table_a table_b : Table) (skipped_fields only_fields : List Nat)
    (ignore_case ignore_order : Bool) : Except String Differ :=
  if ignore_order && !(table_a.label_first_row && table_b.label_first_row) then
    Except.error "AssertionError: ignore_order requires labeled tables"
  else if !skipped_fields.isEmpty && !only_fields.isEmpty then
    Except.error "AssertionError: skipped_fields and only_fields are exclusive"
  else
    let all_fields := List.range (max table_a.fields.length table_b.fields.length)
    let sk :=
      if !only_fields.isEmpty then all_fields.filter (fun i => !only_fields.contains i)
      else skipped_fields
    if table_a.label_first_row != table_b.label_first_row then
      Except.error "AssertionError: label_first_row flags differ"
    else
      Except.ok
        { table_a := table_a
          table_b := table_b
          skipped_fields := sk
          ignore_case := ignore_case
          ignore_order := ignore_order
          mapping :=
            if table_a.label_first_row then buildMapping table_a.fields table_b.fields
            else []
          difference_detected := false }

/-- The `diff_seq_by_index` call made by `TableDiffer._diff_row`: the
configured comparator and skip set, and the label mapping only under
`ignore_order` (`mapping = self.mapping if self.ignore_order else None`). -/
def Differ.rowDiffs (d : Differ) (row_a row_b : List Val) : List (Nat × Val × Val) :=
  diff_seq_by_index row_a row_b (comparator d.ignore_case)
    (if d.ignore_order then d.mapping else [])
    (fun i => d.skipped_fields.contains i)

/-- `added = [(i, y) for i, x, y in diffs if x is nil]`. -/
def addedPart (diffs : List (Nat × Val × Val)) : List (Nat × Val) :=
  diffs.filterMap (fun t => if t.2.1 = Val.nil then some (t.1, t.2.2) else none)

/-- `deleted = [(i, x) for i, x, y in diffs if y is nil]`. -/
def deletedPart (diffs : List (Nat × Val × Val)) : List (Nat × Val) :=
  diffs.filterMap (fun t => if t.2.2 = Val.nil then some (t.1, t.2.1) else none)

/-- `changed = [(i, x, y) for i, x, y in diffs if x is not nil and y is not nil]`. -/
def changedPart (diffs : List (Nat × Val × Val)) : List (Nat × Val × Val) :=
  diffs.filter (fun t => !(t.2.1 == Val.nil) && !(t.2.2 == Val.nil))

/-- `TableDiffer._diff_row`: the three partitions of the positional diffs,
together with the updated `difference_detected` flag (`if any([added,
deleted, changed]): self.difference_detected = True`). -/
def Differ.diffRowParts (d : Differ) (row_a row_b : List Val) :
    (List (Nat × Val) × List (Nat × Val) × List (Nat × Val × Val)) × Bool :=
  let diffs := d.rowDiffs row_a row_b
  let added := addedPart diffs
  let deleted := deletedPart diffs
  let changed := changedPart diffs
  ((added, deleted, changed),
    d.difference_detected || (!added.isEmpty || !deleted.isEmpty || !changed.isEmpty))

/-- `TableDiffer.diff_fields`: `_diff_row` applied to the two schemas. -/
def Differ.diff_fields (d : Differ) :
    (List (Nat × Val) × List (Nat × Val) × List (Nat × Val × Val)) × Bool :=
  d.diffRowParts d.table_a.fields d.table_b.fields

/-- One record yielded by `TableDiffer.diff_rows`. -/
inductive RowDiffRecord where
  | added (i : Nat) (row : List Val) : RowDiffRecord
  | deleted (i : Nat) (row : List Val) : RowDiffRecord
  | changed (i : Nat) (row_a row_b : List Val)
      (values_changed : List (Nat × Val × Val)) : RowDiffRecord
deriving DecidableEq, Repr

/-- The position carried by a row diff record. -/
def RowDiffRecord.pos : RowDiffRecord → Nat
  | RowDiffRecord.added i _ => i
  | RowDiffRecord.deleted i _ => i
  | RowDiffRecord.changed i _ _ _ => i

/-- The tail of `TableDiffer.diff_rows` once stream A is exhausted: every
remaining row of B is yielded as an `added` record (the flag is no longer
touched on this path). -/
def drainAdded : List (List Val) → Nat → Bool → List RowDiffRecord × Bool × Bool
  | [], _, fl => ([], fl, false)
  | y :: bs, i, fl =>
    let r := drainAdded bs (i + 1) fl
    (RowDiffRecord.added i y :: r.1, r.2)

/-- The loop of `TableDiffer.diff_rows`, draining the two row streams from
position `i` with `difference_detected` currently `fl`.  Returns the yielded
records, the final flag, and whether the generator died on the
`assert len(x) == len(y)` (in which case no further record is yielded and
the flag is left as it was). -/
def diffRowsAux (d : Differ) :
    List (List Val) → List (List Val) → Nat → Bool →
      List RowDiffRecord × Bool × Bool
  | [], bs, i, fl => drainAdded bs i fl
  | x :: as, bs, i, fl =>
    match bs with
    | [] =>
      let r := diffRowsAux d as [] (i + 1) fl
      (RowDiffRecord.deleted i x :: r.1, r.2)
    | y :: bs' =>
      if x.length = y.length then
        let diffs := d.rowDiffs x y
        let changed := changedPart diffs
        let fl' := fl || (!(addedPart diffs).isEmpty || !(deletedPart diffs).isEmpty
          || !changed.isEmpty)
        let r := diffRowsAux d as bs' (i + 1) fl'
        (if changed.isEmpty then r.1 else RowDiffRecord.changed i x y changed :: r.1, r.2)
      else ([], fl, true)

/-- `TableDiffer.diff_rows`, fully drained: records, final flag, abort bit. -/
def Differ.diff_rows (d : Differ) : List RowDiffRecord × Bool × Bool :=
  diffRowsAux d d.table_a.rows d.table_b.rows 0 d.difference_detected

/-- The position-by-position sequence comparison of the two schemas under
the engine's configured comparator, skip set, and (under ignore-order) the
label mapping, written as one lookup per position of the index range. -/
def fieldsSeqDiffs (d : Differ) : List (Nat × Val × Val) :=
  (List.range (max d.table_a.fields.length d.table_b.fields.length)).filterMap
    (seqDiffAt d.table_a.fields d.table_b.fields (comparator d.ignore_case)
      (if d.ignore_order then d.mapping else [])
      (fun i => d.skipped_fields.contains i))

/-- The specified outcome of one step of the row reconciliation at stream
position `p` (record positions offset by `n`): nothing once both streams
are exhausted, an `added`/`deleted` record when exactly one stream yields a
row, and a `changed` record exactly when the changed partition of the
configured row comparison is non-empty. -/
def reconcileStep (d : Differ) (as bs : List (List Val)) (n p : Nat) :
    Option RowDiffRecord :=
  match as.get? p, bs.get? p with
  | none, none => none
  | some x, none => some (RowDiffRecord.deleted (n + p) x)
  | none, some y => some (RowDiffRecord.added (n + p) y)
  | some x, some y =>
    let ch := changedPart (d.rowDiffs x y)
    if ch.isEmpty then none else some (RowDiffRecord.changed (n + p) x y ch)

/-- The specified row reconciliation sequence: one step per position of the
shared counter, which runs over `0 .. max(len A, len B) - 1` and increments
every step regardless of emission. -/
def reconcileSpecFrom (d : Differ) (as bs : List (List Val)) (n : Nat) :
    List RowDiffRecord :=
  (List.range (max as.length bs.length)).filterMap (reconcileStep d as bs n)

/-- Shorthand for a string cell value, used in concrete scenarios. -/
def sv (s : String) : Val := Val.str s

/-- A concrete engine over two one-column tables with 2 and 3 rows, used as
a witness input. -/
def witnessDiffer : Differ :=
  { table_a := ⟨[sv "0"], [[sv "a"], [sv "b"]], false⟩
    table_b := ⟨[sv "0"], [[sv "a"], [sv "c"], [sv "d"]], false⟩
    skipped_fields := []
    ignore_case := false
    ignore_order := false
    mapping := []
    difference_detected := false }

/-- A concrete engine with a non-empty field filter and streams of unequal
length, used as a witness input. -/
def witnessDifferSkip : Differ :=
  { table_a := ⟨[sv "0"], [[sv "a"]], false⟩
    table_b := ⟨[sv "0"], [[sv "a"], [sv "b"]], false⟩
    skipped_fields := [0]
    ignore_case := false
    ignore_order := false
    mapping := []
    difference_detected := false }

/-- A concrete engine whose second row pair has mismatched lengths, used as
a witness input. -/
def witnessDifferMismatch : Differ :=
  { table_a := ⟨[sv "0"], [[sv "a"], [sv "b", sv "c"]], false⟩
    table_b := ⟨[sv "0"], [[sv "a"], [sv "b"]], false⟩
    skipped_fields := []
    ignore_case := false
    ignore_order := false
    mapping := []
    difference_detected := false }

theorem diff_seq_by_index_eq_filterMap (a b : List Val) (cmp : Val → Val → Bool)
    (mapping : List (Nat × Nat)) (skip : Nat → Bool) :
    diff_seq_by_index a b cmp mapping skip =
      (List.range (max a.length b.length)).filterMap (seqDiffAt a b cmp mapping skip) := by
  unfold diff_seq_by_index
  generalize List.range (max a.length b.length) = l
  suffices h : ∀ (acc : List (Nat × Val × Val)),
      l.foldl (fun diffs i =>
        if skip i then diffs
        else
          let x := (a.get? i).getD Val.nil
          let j := (bidirLookup mapping i).getD i
          let y := (b.get? j).getD Val.nil
          if cmp x y then diffs else diffs ++ [(i, x, y)]) acc =
        acc ++ l.filterMap (seqDiffAt a b cmp mapping skip) by
    simpa using h []
  induction l with
  | nil => intro acc; simp
  | cons i l ih =>
    intro acc
    simp only [List.foldl_cons]
    rw [ih]
    simp only [seqDiffAt, List.filterMap_cons]
    by_cases hs : skip i
    · simp [hs]
    · by_cases hc : cmp (a[i]?.getD Val.nil)
          (b[(bidirLookup mapping i).getD i]?.getD Val.nil) = true
      · simp [hs, hc]
      · simp [hs, hc]

theorem bidirLookup_of_symm (m : List (Nat × Nat))
    (hs : ∀ p ∈ m, (p.2, p.1) ∈ m) (i : Nat) :
    bidirLookup m i = mappingAt m i := by
  unfold bidirLookup mappingAt
  rw [List.find?_append]
  cases hf : m.find? (fun p => p.1 == i) with
  | some r => rfl
  | none =>
    have h2 : (m.map (fun p => (p.2, p.1))).find? (fun p => p.1 == i) = none := by
      rw [List.find?_eq_none]
      rintro ⟨u, v⟩ hmem hpred
      rw [List.mem_map] at hmem
      rcases hmem with ⟨⟨x, y⟩, hxy, heq⟩
      cases heq
      have hy : y = i := by simpa using hpred
      subst hy
      exact (List.find?_eq_none.mp hf) _ (hs (x, y) hxy) (by simp)
    rw [h2]
    rfl

theorem seqDiffAt_eq_spec (a b : List Val) (cmp : Val → Val → Bool)
    (m : List (Nat × Nat)) (skip : Nat → Bool)
    (hs : ∀ p ∈ m, (p.2, p.1) ∈ m) :
    seqDiffAt a b cmp m skip = seqDiffSpecAt a b cmp m skip := by
  funext i
  unfold seqDiffAt seqDiffSpecAt
  rw [bidirLookup_of_symm m hs i]

theorem seqDiffAt_pos (a b : List Val) (cmp : Val → Val → Bool)
    (m : List (Nat × Nat)) (skip : Nat → Bool) (i : Nat) (t : Nat × Val × Val)
    (h : seqDiffAt a b cmp m skip i = some t) : t.1 = i := by
  unfold seqDiffAt at h
  by_cases hsk : skip i
  · rw [if_pos hsk] at h
    exact absurd h (by simp)
  · rw [if_neg hsk] at h
    by_cases hc : cmp ((a.get? i).getD Val.nil)
        ((b.get? ((bidirLookup m i).getD i)).getD Val.nil) = true
    · rw [if_pos hc] at h
      exact absurd h (by simp)
    · rw [if_neg hc] at h
      injection h with h2
      rw [← h2]

theorem comparator_refl (ic : Bool) (v : Val) : comparator ic v v = true := by
  cases ic <;> simp [comparator]

theorem rowDiffs_self (d : Differ) (h : d.ignore_order = false) (r : List Val) :
    d.rowDiffs r r = [] := by
  unfold Differ.rowDiffs
  rw [h, if_neg (by simp), diff_seq_by_index_eq_filterMap, List.filterMap_eq_nil]
  intro i _
  unfold seqDiffAt
  by_cases hsk : List.contains d.skipped_fields i = true
  · rw [if_pos hsk]
  · rw [if_neg hsk]
    have hb : bidirLookup [] i = none := rfl
    simp [hb, comparator_refl]

theorem partsNonemptyEq (diffs : List (Nat × Val × Val)) :
    (!(addedPart diffs).isEmpty || !(deletedPart diffs).isEmpty
      || !(changedPart diffs).isEmpty) = !diffs.isEmpty := by
  cases diffs with
  | nil => rfl
  | cons t rest =>
    simp only [List.isEmpty_cons, Bool.not_false]
    by_cases h1 : t.2.1 = Val.nil
    · simp [addedPart, List.filterMap_cons, h1]
    · by_cases h2 : t.2.2 = Val.nil
      · simp [deletedPart, List.filterMap_cons, h2]
      · simp [changedPart, List.filter_cons, h1, h2]

theorem get?_eq_some_getD {α : Type} (l : List α) (d : α) (p : Nat)
    (h : p < l.length) : l.get? p = some (l.getD p d) := by
  rw [List.getD_eq_get?]
  cases hg : l.get? p with
  | none => rw [List.get?_eq_none] at hg; omega
  | some v => rfl

theorem filterMap_eq_map_on {α β : Type} (l : List α) (g : α → Option β)
    (f : α → β) (h : ∀ a ∈ l, g a = some (f a)) : l.filterMap g = l.map f := by
  induction l with
  | nil => rfl
  | cons a l ih =>
    rw [List.filterMap_cons, h a (List.mem_cons_self a l), List.map_cons,
      ih (fun x hx => h x (List.mem_cons_of_mem a hx))]

/-- C1: for finite sequences, any equality predicate, a symmetric functional
mapping, and any skip predicate, `diff_seq_by_index` returns, in strictly
increasing order of position, exactly one triple per non-skipped position of
`0 .. max(len A, len B) - 1` at which the predicate reports the resolved
pair unequal, with `j = mapping(i)` when the mapping contains `i` and
`j = i` otherwise, and the sentinel standing in for out-of-range reads. -/
theorem diff_seq_by_index_characterization (a b : List Val)
    (cmp : Val → Val → Bool) (m : List (Nat × Nat)) (skip : Nat → Bool)
    (hsymm : ∀ p ∈ m, (p.2, p.1) ∈ m)
    (hfun : ∀ p ∈ m, ∀ q ∈ m, p.1 = q.1 → p.2 = q.2) :
    diff_seq_by_index a b cmp m skip =
      (List.range (max a.length b.length)).filterMap (seqDiffSpecAt a b cmp m skip)
    ∧ List.Pairwise (fun u v => u.1 < v.1) (diff_seq_by_index a b cmp m skip) := by
  have hchar : diff_seq_by_index a b cmp m skip =
      (List.range (max a.length b.length)).filterMap (seqDiffSpecAt a b cmp m skip) := by
    rw [diff_seq_by_index_eq_filterMap, seqDiffAt_eq_spec a b cmp m skip hsymm]
  refine ⟨hchar, ?_⟩
  rw [diff_seq_by_index_eq_filterMap]
  refine List.Pairwise.filterMap _ ?_ (List.pairwise_lt_range _)
  intro i i' hlt t ht t' ht'
  rw [seqDiffAt_pos a b cmp m skip i t ht, seqDiffAt_pos a b cmp m skip i' t' ht']
  exact hlt

/-- Witness for C1 at a concrete symmetric functional mapping, with a
skipped position and an out-of-range read. -/
theorem diff_seq_by_index_characterization_witness :
    (∀ p ∈ [(1, 2), (2, 1)], (p.2, p.1) ∈ [(1, 2), (2, 1)])
    ∧ (∀ p ∈ [(1, 2), (2, 1)], ∀ q ∈ [(1, 2), (2, 1)], p.1 = q.1 → p.2 = q.2)
    ∧ (diff_seq_by_index [sv "1", sv "2"] [sv "1", sv "2", sv "3"]
        (comparator false) [(1, 2), (2, 1)] (fun i => i == 0) =
        (List.range (max ([sv "1", sv "2"] : List Val).length
            ([sv "1", sv "2", sv "3"] : List Val).length)).filterMap
          (seqDiffSpecAt [sv "1", sv "2"] [sv "1", sv "2", sv "3"]
            (comparator false) [(1, 2), (2, 1)] (fun i => i == 0))
      ∧ List.Pairwise (fun u v => u.1 < v.1)
          (diff_seq_by_index [sv "1", sv "2"] [sv "1", sv "2", sv "3"]
            (comparator false) [(1, 2), (2, 1)] (fun i => i == 0))) := by
  refine ⟨by decide, by decide, ?_⟩
  exact diff_seq_by_index_characterization [sv "1", sv "2"]
    [sv "1", sv "2", sv "3"] (comparator false) [(1, 2), (2, 1)] (fun i => i == 0)
    (by decide) (by decide)

/-- C9: a table built from a non-empty row source with no explicit field
names and `label_first_row = False` gets the stringified 0-based column
indices of its first row as schema, and its row stream is preserved
losslessly, the peeked row still first. -/
theorem table_init_synthesized_schema (r : List Val) (rest : List (List Val)) :
    Table.init (r :: rest) none false =
      Except.ok ⟨(List.range r.length).map (fun i => Val.str (toString i)),
        r :: rest, false⟩ := rfl

/-- C4 (code bug): a pure row addition (and, symmetrically, a pure row
deletion) is yielded by `diff_rows` while `difference_detected` stays
`false` — emitting a row added/deleted record does not set the engine's
difference flag, contradicting the claim. -/
theorem row_added_leaves_flag_unset :
    (({ table_a := ⟨[sv "0"], [[sv "a"]], false⟩,
        table_b := ⟨[sv "0"], [[sv "a"], [sv "b"]], false⟩,
        skipped_fields := [], ignore_case := false, ignore_order := false,
        mapping := [], difference_detected := false } : Differ).diff_rows
      = ([RowDiffRecord.added 1 [sv "b"]], false, false))
    ∧ (({ table_a := ⟨[sv "0"], [[sv "a"], [sv "b"]], false⟩,
          table_b := ⟨[sv "0"], [[sv "a"]], false⟩,
          skipped_fields := [], ignore_case := false, ignore_order := false,
          mapping := [], difference_detected := false } : Differ).diff_rows
      = ([RowDiffRecord.deleted 1 [sv "b"]], false, false)) := by decide

/-- C5 counterexample: under the case-insensitive predicate the sentinel
compares equal to the concrete cell value `"NIL"` (because the comparator
stringifies the sentinel to `"nil"`), refuting "the sentinel compares
unequal to every concrete cell value" for that predicate. -/
theorem sentinel_nil_string_cex :
    Val.str "NIL" ≠ Val.nil ∧ comparator true Val.nil (Val.str "NIL") = true := by
  decide

/-- C5 amended: under exact equality the sentinel compares unequal to every
concrete cell value (empty string and `None` included); under the
case-insensitive predicate it compares unequal to a concrete value exactly
when that value's lowercased string form is not `"nil"`. -/
theorem sentinel_comparator_amended (v : Val) (h : v ≠ Val.nil) :
    comparator false Val.nil v = false ∧ comparator false v Val.nil = false
    ∧ comparator true Val.nil v = ("nil" == pyLower (pyStr v))
    ∧ comparator true v Val.nil = (pyLower (pyStr v) == "nil") := by
  have hnil : pyLower (pyStr Val.nil) = "nil" := by decide
  refine ⟨?_, ?_, ?_, ?_⟩
  · exact beq_eq_false_iff_ne.mpr (Ne.symm h)
  · exact beq_eq_false_iff_ne.mpr h
  · rw [show comparator true Val.nil v
        = (pyLower (pyStr Val.nil) == pyLower (pyStr v)) from rfl, hnil]
  · rw [show comparator true v Val.nil
        = (pyLower (pyStr v) == pyLower (pyStr Val.nil)) from rfl, hnil]

/-- Witness for C5 amended at the empty string and at `None`. -/
theorem sentinel_comparator_amended_witness :
    (Val.str "" ≠ Val.nil ∧
      (comparator false Val.nil (Val.str "") = false
        ∧ comparator false (Val.str "") Val.nil = false
        ∧ comparator true Val.nil (Val.str "") = ("nil" == pyLower (pyStr (Val.str "")))
        ∧ comparator true (Val.str "") Val.nil = (pyLower (pyStr (Val.str "")) == "nil")))
    ∧ (Val.pynone ≠ Val.nil ∧
      (comparator false Val.nil Val.pynone = false
        ∧ comparator false Val.pynone Val.nil = false
        ∧ comparator true Val.nil Val.pynone = ("nil" == pyLower (pyStr Val.pynone))
        ∧ comparator true Val.pynone Val.nil = (pyLower (pyStr Val.pynone) == "nil"))) :=
  ⟨⟨by decide, sentinel_comparator_amended (Val.str "") (by decide)⟩,
   ⟨by decide, sentinel_comparator_amended Val.pynone (by decide)⟩⟩

/-- C3 counterexample: with schemas `(1,2,3)` and `(1,2,4)` and skip set
`{2}`, `diff_fields` reports no changed field, while the positional
comparison of the two schemas with no mapping and no skip reports a change
at position 2 — `diff_fields` is not the unfiltered positional comparison. -/
theorem diff_fields_not_positional_cex :
    (({ table_a := ⟨[sv "1", sv "2", sv "3"], [], false⟩,
        table_b := ⟨[sv "1", sv "2", sv "4"], [], false⟩,
        skipped_fields := [2], ignore_case := false, ignore_order := false,
        mapping := [], difference_detected := false } : Differ).diff_fields).1
      = ([], [], [])
    ∧ diff_seq_by_index [sv "1", sv "2", sv "3"] [sv "1", sv "2", sv "4"]
        (comparator false) [] (fun _ => false)
      = [(2, sv "3", sv "4")] := by decide

/-- C3 amended: `diff_fields` compares the two schemas with the engine's
configured comparator and skip set, and with the label mapping applied when
ignore-order is enabled; its result is the added/deleted/changed partition
of that filtered comparison, and the difference flag is or-ed with its
non-emptiness. -/
theorem diff_fields_configured_comparison (d : Differ) :
    d.diff_fields =
      ((addedPart (fieldsSeqDiffs d), deletedPart (fieldsSeqDiffs d),
        changedPart (fieldsSeqDiffs d)),
       d.difference_detected || !(fieldsSeqDiffs d).isEmpty) := by
  show (d.diffRowParts d.table_a.fields d.table_b.fields) = _
  unfold Differ.diffRowParts
  have hL : d.rowDiffs d.table_a.fields d.table_b.fields = fieldsSeqDiffs d := by
    unfold Differ.rowDiffs fieldsSeqDiffs
    rw [diff_seq_by_index_eq_filterMap]
  rw [hL]
  simp only [partsNonemptyEq]

/-- C7 counterexample: one label-schema table paired with one
non-label-schema table, ignore-order off and no field filters — the claim
says construction succeeds in this configuration, but `TableDiffer.__init__`
fails on its `label_first_row` equality assertion. -/
theorem init_mixed_labels_cex :
    (TableDiffer.init ⟨[sv "0"], [], true⟩ ⟨[sv "0"], [], false⟩
      [] [] false false).isOk = false := by decide

/-- C7 amended: construction fails exactly when a non-empty skip list and a
non-empty only list are both given, or ignore-order is requested without
label-first-row on both tables, or the two tables' label-first-row flags
differ; on success the mapping is the label-derived one when both tables are
label-schema tables and empty otherwise (purely positional comparison). -/
theorem init_result_characterization (ta tb : Table) (sk onl : List Nat)
    (ic io : Bool) :
    (TableDiffer.init ta tb sk onl ic io).toOption.map Differ.mapping =
      (if (io && !(ta.label_first_row && tb.label_first_row))
          || (!sk.isEmpty && !onl.isEmpty)
          || (ta.label_first_row != tb.label_first_row) then none
        else some (if ta.label_first_row then buildMapping ta.fields tb.fields
          else [])) := by
  unfold TableDiffer.init
  cases io <;> cases hA : ta.label_first_row <;> cases hB : tb.label_first_row <;>
    cases sk <;> cases onl <;> simp [hA, hB, Except.toOption, Option.map]

/-- C6 counterexample: with duplicate labels in table A (`fields = (x, x)`
against `(x, y)`), the mapping built at engine construction pairs the two
distinct A-indices 0 and 1 with the same B-index 0. -/
theorem mapping_duplicate_label_cex :
    (TableDiffer.init ⟨[sv "x", sv "x"], [], true⟩ ⟨[sv "x", sv "y"], [], true⟩
      [] [] false false).toOption.map Differ.mapping = some [(0, 0), (1, 0)] := by
  decide

/-- C8 counterexample: both drawn rows have length 2 while both schemas
have length 1 — each row's length differs from its table's declared schema
length, yet the comparison does not fail: no error is raised and a changed
record is emitted (the assert compares the rows to each other, not to the
schemas). -/
theorem equal_overlong_rows_no_abort_cex :
    ([sv "a", sv "b"] : List Val).length ≠ ([sv "0"] : List Val).length
    ∧ (({ table_a := ⟨[sv "0"], [[sv "a", sv "b"]], false⟩,
          table_b := ⟨[sv "0"], [[sv "a", sv "c"]], false⟩,
          skipped_fields := [], ignore_case := false, ignore_order := false,
          mapping := [], difference_detected := false } : Differ).diff_rows
      = ([RowDiffRecord.changed 0 [sv "a", sv "b"] [sv "a", sv "c"]
          [(1, sv "b", sv "c")]], true, false)) := by decide

theorem drainAdded_records (bs : List (List Val)) (n : Nat) (fl : Bool) :
    (drainAdded bs n fl).1 =
      (List.range bs.length).map
        (fun p => RowDiffRecord.added (n + p) (bs.getD p [])) := by
  induction bs generalizing n with
  | nil => rfl
  | cons y bs ih =>
    show RowDiffRecord.added n y :: (drainAdded bs (n + 1) fl).1 = _
    rw [ih (n + 1), List.length_cons, List.range_succ_eq_map, List.map_cons,
      List.map_map]
    congr 1
    congr 1
    funext p
    simp only [Function.comp_apply, List.getD_cons_succ]
    congr 1
    omega

theorem drainAdded_state (bs : List (List Val)) (n : Nat) (fl : Bool) :
    (drainAdded bs n fl).2 = (fl, false) := by
  induction bs generalizing n with
  | nil => rfl
  | cons y bs ih => exact ih (n + 1)

theorem reconcileStep_cons_cons_succ (d : Differ) (x y : List Val)
    (as bs : List (List Val)) (n p : Nat) :
    reconcileStep d (x :: as) (y :: bs) n (p + 1) = reconcileStep d as bs (n + 1) p := by
  have hn : n + (p + 1) = n + 1 + p := by omega
  simp [reconcileStep, hn]

theorem reconcileStep_cons_nil_succ (d : Differ) (x : List Val)
    (as : List (List Val)) (n p : Nat) :
    reconcileStep d (x :: as) [] n (p + 1) = reconcileStep d as [] (n + 1) p := by
  have hn : n + (p + 1) = n + 1 + p := by omega
  simp [reconcileStep, hn]

theorem diffRowsAux_spec (d : Differ) (as : List (List Val)) :
    ∀ (bs : List (List Val)) (n : Nat) (fl : Bool),
      (∀ k, k < min as.length bs.length →
        (as.getD k []).length = (bs.getD k []).length) →
      (diffRowsAux d as bs n fl).1 = reconcileSpecFrom d as bs n
      ∧ (diffRowsAux d as bs n fl).2.2 = false := by
  induction as with
  | nil =>
    intro bs n fl _
    constructor
    · show (drainAdded bs n fl).1 = _
      rw [drainAdded_records]
      unfold reconcileSpecFrom
      rw [List.length_nil, Nat.zero_max]
      symm
      apply filterMap_eq_map_on
      intro p hp
      rw [List.mem_range] at hp
      unfold reconcileStep
      rw [get?_eq_some_getD bs [] p hp]
      rfl
    · show (drainAdded bs n fl).2.2 = false
      rw [drainAdded_state]
  | cons x as ih =>
    intro bs n fl h
    cases bs with
    | nil =>
      have hrec := ih [] (n + 1) fl (fun k hk => absurd hk (by simp))
      have hg0 : reconcileStep d (x :: as) [] n 0
          = some (RowDiffRecord.deleted n x) := by
        simp [reconcileStep]
      have hcomp : (reconcileStep d (x :: as) [] n) ∘ Nat.succ
          = reconcileStep d as [] (n + 1) :=
        funext fun p => reconcileStep_cons_nil_succ d x as n p
      constructor
      · show RowDiffRecord.deleted n x :: (diffRowsAux d as [] (n + 1) fl).1 = _
        rw [hrec.1]
        simp only [reconcileSpecFrom, List.length_cons, List.length_nil, Nat.max_zero,
          List.range_succ_eq_map, List.filterMap_cons, hg0, List.filterMap_map, hcomp]
      · show (diffRowsAux d as [] (n + 1) fl).2.2 = false
        exact hrec.2
    | cons y bs =>
      have h0 : x.length = y.length := by
        have := h 0 (by simp [Nat.lt_min])
        simpa using this
      have htail : ∀ k, k < min as.length bs.length →
          (as.getD k []).length = (bs.getD k []).length := by
        intro k hk
        have hk2 : k + 1 < min (x :: as).length (y :: bs).length := by
          simp only [Nat.lt_min, List.length_cons] at hk ⊢
          omega
        have := h (k + 1) hk2
        simpa using this
      have hcomp : (reconcileStep d (x :: as) (y :: bs) n) ∘ Nat.succ
          = reconcileStep d as bs (n + 1) :=
        funext fun p => reconcileStep_cons_cons_succ d x y as bs n p
      have hg0 : reconcileStep d (x :: as) (y :: bs) n 0
          = (if (changedPart (d.rowDiffs x y)).isEmpty then none
            else some (RowDiffRecord.changed n x y (changedPart (d.rowDiffs x y)))) := by
        simp [reconcileStep]
      constructor
      · simp only [diffRowsAux]
        rw [if_pos h0]
        rw [(ih bs (n + 1) _ htail).1]
        simp only [reconcileSpecFrom, List.length_cons, Nat.succ_max_succ,
          List.range_succ_eq_map, List.filterMap_cons, hg0, List.filterMap_map, hcomp]
        by_cases hch : (changedPart (d.rowDiffs x y)).isEmpty = true
        · simp [hch]
        · simp [hch]
      · simp only [diffRowsAux]
        rw [if_pos h0]
        exact (ih bs (n + 1) _ htail).2

theorem diffRowsAux_abort (d : Differ) (as : List (List Val)) :
    ∀ (bs : List (List Val)) (n : Nat) (fl : Bool) (k : Nat),
      (∀ m, m < k → (as.getD m []).length = (bs.getD m []).length) →
      k < as.length → k < bs.length →
      (as.getD k []).length ≠ (bs.getD k []).length →
      (diffRowsAux d as bs n fl).2.2 = true
      ∧ ∀ r ∈ (diffRowsAux d as bs n fl).1, r.pos < n + k := by
  induction as with
  | nil => intro bs n fl k _ h2 _ _; exact absurd h2 (by simp)
  | cons x as ih =>
    intro bs n fl k h1 h2 h3 h4
    cases bs with
    | nil => exact absurd h3 (by simp)
    | cons y bs =>
      cases k with
      | zero =>
        have hxy : ¬x.length = y.length := by simpa using h4
        constructor
        · simp only [diffRowsAux]
          rw [if_neg hxy]
        · simp only [diffRowsAux]
          rw [if_neg hxy]
          intro r hr
          exact absurd hr (by simp)
      | succ k =>
        have h0 : x.length = y.length := by simpa using h1 0 (Nat.succ_pos k)
        have h1t : ∀ m, m < k → (as.getD m []).length = (bs.getD m []).length := by
          intro m hm
          have := h1 (m + 1) (by omega)
          simpa using this
        have hrec := ih bs (n + 1)
          (fl || (!(addedPart (d.rowDiffs x y)).isEmpty
            || !(deletedPart (d.rowDiffs x y)).isEmpty
            || !(changedPart (d.rowDiffs x y)).isEmpty))
          k h1t (by simpa using h2) (by simpa using h3) (by simpa using h4)
        constructor
        · simp only [diffRowsAux]
          rw [if_pos h0]
          exact hrec.1
        · simp only [diffRowsAux]
          rw [if_pos h0]
          by_cases hch : (changedPart (d.rowDiffs x y)).isEmpty = true <;> intro r hr
          · rw [if_pos hch] at hr
            have := hrec.2 r hr
            omega
          · rw [if_neg hch] at hr
            cases hr with
            | head =>
              show n < n + (k + 1)
              omega
            | tail _ hr2 =>
              have := hrec.2 r hr2
              omega

/-- C2: `diff_rows` draws one row from each stream per step at a shared
position counter starting at 0: it terminates when both streams are
exhausted, emits an added (resp. deleted) record when only B (resp. only A)
yields a row, and emits a changed record exactly when the changed partition
of the configured row comparison is non-empty, emitting nothing for the
step otherwise; in particular, A with one row and B with two rows whose
first rows are equal produce exactly one added record at position 1. -/
theorem diff_rows_reconciliation (d : Differ)
    (h : ∀ k, k < min d.table_a.rows.length d.table_b.rows.length →
      (d.table_a.rows.getD k []).length = (d.table_b.rows.getD k []).length) :
    d.diff_rows.1 = reconcileSpecFrom d d.table_a.rows d.table_b.rows 0
    ∧ d.diff_rows.2.2 = false
    ∧ ∀ (e : Differ) (r s : List Val), e.ignore_order = false →
        (diffRowsAux e [r] [r, s] 0 false).1 = [RowDiffRecord.added 1 s] := by
  refine ⟨(diffRowsAux_spec d d.table_a.rows d.table_b.rows 0
      d.difference_detected h).1,
    (diffRowsAux_spec d d.table_a.rows d.table_b.rows 0
      d.difference_detected h).2, ?_⟩
  intro e r s he
  have hch : changedPart (e.rowDiffs r r) = [] := by
    rw [rowDiffs_self e he r]
    rfl
  simp [diffRowsAux, drainAdded, hch]

/-- Witness for C2 at a concrete engine with a changed pair and an extra B
row. -/
theorem diff_rows_reconciliation_witness :
    (∀ k, k < min witnessDiffer.table_a.rows.length
        witnessDiffer.table_b.rows.length →
      (witnessDiffer.table_a.rows.getD k []).length
        = (witnessDiffer.table_b.rows.getD k []).length)
    ∧ (witnessDiffer.diff_rows.1
        = reconcileSpecFrom witnessDiffer witnessDiffer.table_a.rows
            witnessDiffer.table_b.rows 0
      ∧ witnessDiffer.diff_rows.2.2 = false
      ∧ ∀ (e : Differ) (r s : List Val), e.ignore_order = false →
          (diffRowsAux e [r] [r, s] 0 false).1 = [RowDiffRecord.added 1 s]) :=
  ⟨by decide, diff_rows_reconciliation witnessDiffer (by decide)⟩

/-- C8 amended: the row comparison fails hard exactly on a row pair whose
two lengths differ from each other: at the first such step the generator
raises (`assert len(x) == len(y)`), no record is emitted for that step or
any later one, and the failing step produces no partial result. -/
theorem diff_rows_abort_on_row_length_mismatch (d : Differ) (k : Nat)
    (h1 : ∀ m, m < k →
      (d.table_a.rows.getD m []).length = (d.table_b.rows.getD m []).length)
    (h2 : k < d.table_a.rows.length) (h3 : k < d.table_b.rows.length)
    (h4 : (d.table_a.rows.getD k []).length ≠ (d.table_b.rows.getD k []).length) :
    d.diff_rows.2.2 = true ∧ ∀ r ∈ d.diff_rows.1, r.pos < k := by
  have habort := diffRowsAux_abort d d.table_a.rows d.table_b.rows 0
    d.difference_detected k h1 h2 h3 h4
  refine ⟨habort.1, fun r hr => ?_⟩
  have := habort.2 r hr
  omega

/-- Witness for C8 amended at a concrete engine whose second row pair has
lengths 2 and 1. -/
theorem diff_rows_abort_on_row_length_mismatch_witness :
    (∀ m, m < 1 → (witnessDifferMismatch.table_a.rows.getD m []).length
      = (witnessDifferMismatch.table_b.rows.getD m []).length)
    ∧ 1 < witnessDifferMismatch.table_a.rows.length
    ∧ 1 < witnessDifferMismatch.table_b.rows.length
    ∧ (witnessDifferMismatch.table_a.rows.getD 1 []).length
      ≠ (witnessDifferMismatch.table_b.rows.getD 1 []).length
    ∧ (witnessDifferMismatch.diff_rows.2.2 = true
      ∧ ∀ r ∈ witnessDifferMismatch.diff_rows.1, r.pos < 1) :=
  ⟨by decide, by decide, by decide, by decide,
    diff_rows_abort_on_row_length_mismatch witnessDifferMismatch 1
      (by decide) (by decide) (by decide) (by decide)⟩

/-- C10: whenever exactly one stream yields a row at a step, `diff_rows`
emits the added or deleted record carrying the complete row, for every
engine configuration — the field filter never suppresses or trims
added/deleted row records. -/
theorem added_deleted_records_complete (d : Differ)
    (h : ∀ k, k < min d.table_a.rows.length d.table_b.rows.length →
      (d.table_a.rows.getD k []).length = (d.table_b.rows.getD k []).length) :
    (∀ p, d.table_a.rows.length ≤ p → p < d.table_b.rows.length →
      RowDiffRecord.added p (d.table_b.rows.getD p []) ∈ d.diff_rows.1)
    ∧ (∀ p, d.table_b.rows.length ≤ p → p < d.table_a.rows.length →
      RowDiffRecord.deleted p (d.table_a.rows.getD p []) ∈ d.diff_rows.1) := by
  have hspec := (diffRowsAux_spec d d.table_a.rows d.table_b.rows 0
    d.difference_detected h).1
  constructor
  · intro p hpa hpb
    rw [show d.diff_rows.1
      = reconcileSpecFrom d d.table_a.rows d.table_b.rows 0 from hspec]
    unfold reconcileSpecFrom
    apply List.mem_filterMap.mpr
    refine ⟨p, List.mem_range.mpr (lt_of_lt_of_le hpb (le_max_right _ _)), ?_⟩
    unfold reconcileStep
    rw [List.get?_eq_none.mpr hpa, get?_eq_some_getD _ [] p hpb]
    simp
  · intro p hpb hpa
    rw [show d.diff_rows.1
      = reconcileSpecFrom d d.table_a.rows d.table_b.rows 0 from hspec]
    unfold reconcileSpecFrom
    apply List.mem_filterMap.mpr
    refine ⟨p, List.mem_range.mpr (lt_of_lt_of_le hpa (le_max_left _ _)), ?_⟩
    unfold reconcileStep
    rw [List.get?_eq_none.mpr hpb, get?_eq_some_getD _ [] p hpa]
    simp

/-- Witness for C10 at a concrete engine whose only field is filtered out
and whose B stream has one extra row. -/
theorem added_deleted_records_complete_witness :
    (∀ k, k < min witnessDifferSkip.table_a.rows.length
        witnessDifferSkip.table_b.rows.length →
      (witnessDifferSkip.table_a.rows.getD k []).length
        = (witnessDifferSkip.table_b.rows.getD k []).length)
    ∧ ((∀ p, witnessDifferSkip.table_a.rows.length ≤ p →
        p < witnessDifferSkip.table_b.rows.length →
        RowDiffRecord.added p (witnessDifferSkip.table_b.rows.getD p [])
          ∈ witnessDifferSkip.diff_rows.1)
      ∧ (∀ p, witnessDifferSkip.table_b.rows.length ≤ p →
        p < witnessDifferSkip.table_a.rows.length →
        RowDiffRecord.deleted p (witnessDifferSkip.table_a.rows.getD p [])
          ∈ witnessDifferSkip.diff_rows.1)) :=
  ⟨by decide, added_deleted_records_complete witnessDifferSkip (by decide)⟩

theorem buildMapping_mem_iff (fa fb : List Val) (i j : Nat) :
    (i, j) ∈ buildMapping fa fb ↔
      ∃ v, fa.get? i = some v ∧ fb.findIdx? (fun w => w == v) = some j := by
  unfold buildMapping
  rw [List.mem_filterMap]
  constructor
  · rintro ⟨⟨k, v⟩, hk, hv⟩
    rw [Option.map_eq_some'] at hv
    rcases hv with ⟨j2, hj2, heq⟩
    simp only [Prod.mk.injEq] at heq
    obtain ⟨rfl, rfl⟩ := heq
    exact ⟨v, List.mem_enum_iff_get?.mp hk, hj2⟩
  · rintro ⟨v, hv, hj⟩
    refine ⟨(i, v), List.mem_enum_iff_get?.mpr hv, ?_⟩
    rw [hj]
    rfl

theorem findIdx?_some_elem {α : Type} (l : List α) (q : α → Bool) (j : Nat)
    (h : l.findIdx? q = some j) :
    ∃ hlt : j < l.length, q (l.get ⟨j, hlt⟩) = true := by
  rw [List.findIdx?_eq_some_iff_findIdx_eq] at h
  rcases h with ⟨hlt, hidx⟩
  refine ⟨hlt, ?_⟩
  have hfound := @List.findIdx_getElem _ q l (by rw [hidx]; exact hlt)
  simp only [hidx] at hfound
  simpa [List.get_eq_getElem] using hfound

/-- C6 amended: the mapping built at engine construction pairs each A-index
with at most one B-index — the first whose label matches, A-indices with no
matching label being absent — and when table A's labels are pairwise
distinct it also never pairs two distinct A-indices with the same B-index
(one-to-one); with duplicate A-labels the latter fails. -/
theorem buildMapping_first_match_one_to_one (fa fb : List Val) :
    (∀ i j, (i, j) ∈ buildMapping fa fb ↔
      ∃ v, fa.get? i = some v ∧ fb.findIdx? (fun w => w == v) = some j)
    ∧ (∀ i j j', (i, j) ∈ buildMapping fa fb → (i, j') ∈ buildMapping fa fb →
      j = j')
    ∧ (fa.Nodup →
      ∀ i i' j, (i, j) ∈ buildMapping fa fb → (i', j) ∈ buildMapping fa fb →
        i = i') := by
  refine ⟨fun i j => buildMapping_mem_iff fa fb i j, ?_, ?_⟩
  · intro i j j' hj hj'
    rcases (buildMapping_mem_iff fa fb i j).mp hj with ⟨v, hv, hfv⟩
    rcases (buildMapping_mem_iff fa fb i j').mp hj' with ⟨v', hv', hfv'⟩
    rw [hv] at hv'
    injection hv' with hvv
    subst hvv
    rw [hfv] at hfv'
    injection hfv' with hjj
  · intro h i i' j hi hi'
    rcases (buildMapping_mem_iff fa fb i j).mp hi with ⟨v, hv, hfv⟩
    rcases (buildMapping_mem_iff fa fb i' j).mp hi' with ⟨v', hv', hfv'⟩
    obtain ⟨hlt, hq⟩ := findIdx?_some_elem fb _ j hfv
    obtain ⟨hlt', hq'⟩ := findIdx?_some_elem fb _ j hfv'
    have hv1 : fb.get ⟨j, hlt⟩ = v := eq_of_beq hq
    have hv2 : fb.get ⟨j, hlt'⟩ = v' := eq_of_beq hq'
    have hvv : v = v' := by rw [← hv1, ← hv2]
    subst hvv
    have hi_lt : i < fa.length := by
      by_contra hc
      push_neg at hc
      rw [List.get?_eq_none.mpr hc] at hv
      exact absurd hv (by simp)
    exact List.get?_inj hi_lt h (by rw [hv, hv'])

/-- Witness for C6 amended at two small duplicate-free schemas. -/
theorem buildMapping_first_match_one_to_one_witness :
    ([sv "a", sv "b"] : List Val).Nodup
    ∧ ((∀ i j, (i, j) ∈ buildMapping [sv "a", sv "b"] [sv "b", sv "c"] ↔
        ∃ v, ([sv "a", sv "b"] : List Val).get? i = some v
          ∧ ([sv "b", sv "c"] : List Val).findIdx? (fun w => w == v) = some j)
      ∧ (∀ i j j', (i, j) ∈ buildMapping [sv "a", sv "b"] [sv "b", sv "c"] →
        (i, j') ∈ buildMapping [sv "a", sv "b"] [sv "b", sv "c"] → j = j')
      ∧ (∀ i i' j, (i, j) ∈ buildMapping [sv "a", sv "b"] [sv "b", sv "c"] →
        (i', j) ∈ buildMapping [sv "a", sv "b"] [sv "b", sv "c"] → i = i')) :=
  ⟨by decide,
    ⟨(buildMapping_first_match_one_to_one [sv "a", sv "b"] [sv "b", sv "c"]).1,
     (buildMapping_first_match_one_to_one [sv "a", sv "b"] [sv "b", sv "c"]).2.1,
     (buildMapping_first_match_one_to_one [sv "a", sv "b"] [sv "b", sv "c"]).2.2
       (by decide)⟩⟩

end Pycsvdiff
